import Mathlib

/-!
Verification of the subtitle search server (`app.py`) against its
natural-language specification.

Shallow embedding conventions:
* `timedelta` values are embedded as `Int` numbers of milliseconds, so
  `to_timedelta(sub.start)` is the identity on the embedded `start` field
  and the default tolerance `timedelta(seconds=1)` is `1000`.
* The `min_time_diff = timedelta.max` sentinel of `find_closest_sub` is
  embedded as `(⊤ : WithTop Int)`: it is strictly larger than every real
  time difference, exactly like `timedelta.max` in every reachable run.
* The filesystem (`os.path.exists`, `pysrt.open`, `os.walk`) and the
  socket (`conn.sendall`) are environment parameters; `pysrt.open`
  returns `Except`, whose `.error` models a raised parse exception, and
  the n-th `sendall` call raises iff `sendOk n = false`.
* Observable effects (file open attempts, successful frame writes) are
  recorded in an event trace in program order.
-/

namespace Reverso

/-- One parsed subtitle record: `(text, start, end)` with times in
milliseconds, as produced by the external `pysrt` parser. -/
structure SubRecord where
  start : Int
  «end» : Int
  text : String
deriving Repr, DecidableEq

/-- Constant `SEARCH_LIMIT = 12` from app.py line 11. -/
def SEARCH_LIMIT : Nat := 12

/-- Loop of `find_closest_sub` (app.py lines 33-42): `best` is the current
`closest_sub` and `minDiff` the current `min_time_diff`, where `⊤` embeds
the initial `timedelta.max` sentinel. -/
def fcsGo (T W : Int) : List SubRecord → Option SubRecord → WithTop Int → Option SubRecord
  | [], best, _ => best
  | sub :: rest, best, minDiff =>
    if |sub.start - T| ≤ W ∧ (↑(|sub.start - T|) : WithTop Int) < minDiff then
      fcsGo T W rest (some sub) (↑(|sub.start - T|))
    else
      fcsGo T W rest best minDiff

/-- Function `find_closest_sub(start_time, subs, tolerance)` from app.py lines 27-43. -/
def find_closest_sub (start_time : Int) (subs : List SubRecord) (tolerance : Int) :
    Option SubRecord :=
  fcsGo start_time tolerance subs none ⊤

theorem fcsGo_spec (T W : Int) (l : List SubRecord) :
    ∀ (best : Option SubRecord) (minDiff : WithTop Int),
      (best = none ∧ minDiff = ⊤ ∨
        ∃ b, best = some b ∧ minDiff = (↑(|b.start - T|) : WithTop Int) ∧ |b.start - T| ≤ W) →
      ((fcsGo T W l best minDiff = none ↔ best = none ∧ ∀ s ∈ l, ¬ |s.start - T| ≤ W) ∧
        ∀ s, fcsGo T W l best minDiff = some s →
          |s.start - T| ≤ W ∧
          (∀ s' ∈ l, |s'.start - T| ≤ W → |s.start - T| ≤ |s'.start - T|) ∧
          (∀ b, best = some b → |s.start - T| ≤ |b.start - T|) ∧
          (best = some s ∨ ∃ l1 l2, l = l1 ++ s :: l2 ∧
            (↑(|s.start - T|) : WithTop Int) < minDiff ∧
            ∀ s' ∈ l1, |s'.start - T| ≤ W → |s.start - T| < |s'.start - T|)) := by
  induction l with
  | nil =>
    intro best minDiff hinv
    constructor
    · simp [fcsGo]
    · intro s hs
      simp only [fcsGo] at hs
      rcases hinv with ⟨hb, _⟩ | ⟨b, hb, hmd, hel⟩
      · rw [hb] at hs; exact absurd hs (by simp)
      · rw [hb] at hs
        have hbs : b = s := by injection hs
        subst hbs
        refine ⟨hel, by simp, ?_, Or.inl hb⟩
        intro b' hb'
        rw [hb] at hb'
        have : b = b' := by injection hb'
        subst this
        exact le_refl _
  | cons sub rest ih =>
    intro best minDiff hinv
    by_cases hc : |sub.start - T| ≤ W ∧ (↑(|sub.start - T|) : WithTop Int) < minDiff
    · have heq : fcsGo T W (sub :: rest) best minDiff
          = fcsGo T W rest (some sub) (↑(|sub.start - T|)) := by
        simp only [fcsGo, if_pos hc]
      have IH := ih (some sub) (↑(|sub.start - T|)) (Or.inr ⟨sub, rfl, rfl, hc.1⟩)
      rw [heq]
      constructor
      · constructor
        · intro h
          rw [IH.1] at h
          simp at h
        · rintro ⟨_, hall⟩
          exact absurd hc.1 (hall sub (by simp))
      · intro s hs
        obtain ⟨helig, hmin, hbestle, hpos⟩ := IH.2 s hs
        refine ⟨helig, ?_, ?_, ?_⟩
        · intro s' hs' hw
          rcases List.mem_cons.mp hs' with rfl | hmem
          · exact hbestle s' rfl
          · exact hmin s' hmem hw
        · intro b hb
          rcases hinv with ⟨hbn, _⟩ | ⟨b', hb', hmd, _⟩
          · rw [hbn] at hb; exact absurd hb (by simp)
          · rw [hb'] at hb
            have hbb : b' = b := by injection hb
            subst hbb
            have h1 : |sub.start - T| < |b'.start - T| := by
              rw [hmd] at hc
              exact_mod_cast hc.2
            exact le_trans (hbestle sub rfl) (le_of_lt h1)
        · rcases hpos with hps | ⟨l1, l2, hl, hlt, hall⟩
          · have hss : sub = s := by injection hps
            subst hss
            exact Or.inr ⟨[], rest, rfl, hc.2, by simp⟩
          · refine Or.inr ⟨sub :: l1, l2, by rw [hl]; rfl, ?_, ?_⟩
            · have h1 : |s.start - T| < |sub.start - T| := by exact_mod_cast hlt
              calc (↑(|s.start - T|) : WithTop Int)
                  < ↑(|sub.start - T|) := by exact_mod_cast h1
                _ < minDiff := hc.2
            · intro s' hs' hw
              rcases List.mem_cons.mp hs' with rfl | hmem
              · exact_mod_cast hlt
              · exact hall s' hmem hw
    · have heq : fcsGo T W (sub :: rest) best minDiff = fcsGo T W rest best minDiff := by
        simp only [fcsGo, if_neg hc]
      have IH := ih best minDiff hinv
      rw [heq]
      constructor
      · rw [IH.1]
        constructor
        · rintro ⟨hbn, hall⟩
          refine ⟨hbn, ?_⟩
          intro s' hs'
          rcases List.mem_cons.mp hs' with rfl | hmem
          · intro hw
            apply hc
            refine ⟨hw, ?_⟩
            rcases hinv with ⟨_, hmt⟩ | ⟨b, hb, _, _⟩
            · rw [hmt]; exact WithTop.coe_lt_top _
            · rw [hbn] at hb; exact absurd hb (by simp)
          · exact hall s' hmem
        · rintro ⟨hbn, hall⟩
          exact ⟨hbn, fun s' h => hall s' (List.mem_cons_of_mem _ h)⟩
      · intro s hs
        obtain ⟨helig, hmin, hbestle, hpos⟩ := IH.2 s hs
        have hminle : |sub.start - T| ≤ W →
            ∃ b, best = some b ∧ |b.start - T| ≤ |sub.start - T| := by
          intro hw
          have hnl : ¬ (↑(|sub.start - T|) : WithTop Int) < minDiff := fun hlt => hc ⟨hw, hlt⟩
          rcases hinv with ⟨hbn, hmt⟩ | ⟨b, hb, hmd, hel⟩
          · rw [hmt] at hnl; exact absurd (WithTop.coe_lt_top _) hnl
          · refine ⟨b, hb, ?_⟩
            rw [hmd] at hnl
            exact_mod_cast not_lt.mp hnl
        refine ⟨helig, ?_, hbestle, ?_⟩
        · intro s' hs' hw
          rcases List.mem_cons.mp hs' with rfl | hmem
          · obtain ⟨b, hb, hle⟩ := hminle hw
            exact le_trans (hbestle b hb) hle
          · exact hmin s' hmem hw
        · rcases hpos with hps | ⟨l1, l2, hl, hlt, hall⟩
          · exact Or.inl hps
          · refine Or.inr ⟨sub :: l1, l2, by rw [hl]; rfl, hlt, ?_⟩
            intro s' hs' hw
            rcases List.mem_cons.mp hs' with rfl | hmem
            · have hnl : ¬ (↑(|s'.start - T|) : WithTop Int) < minDiff := fun h => hc ⟨hw, h⟩
              have := lt_of_lt_of_le hlt (not_lt.mp hnl)
              exact_mod_cast this
            · exact hall s' hmem hw

/-- C1: `find_closest_sub` returns a record iff some record satisfies
`|start - T| ≤ W`; the returned record is within tolerance, attains the
minimum absolute difference, and among ties the earliest record in the
sequence wins (every strictly earlier eligible record has a strictly
larger difference); it returns `none` when no record is within tolerance
or the sequence is empty. -/
theorem find_closest_sub_correct (start_time tolerance : Int) (subs : List SubRecord) :
    ((find_closest_sub start_time subs tolerance).isSome ↔
      ∃ s ∈ subs, |s.start - start_time| ≤ tolerance) ∧
    ∀ s, find_closest_sub start_time subs tolerance = some s →
      |s.start - start_time| ≤ tolerance ∧
      (∀ s' ∈ subs, |s'.start - start_time| ≤ tolerance →
        |s.start - start_time| ≤ |s'.start - start_time|) ∧
      ∃ l1 l2, subs = l1 ++ s :: l2 ∧
        ∀ s' ∈ l1, |s'.start - start_time| ≤ tolerance →
          |s.start - start_time| < |s'.start - start_time| := by
  have H := fcsGo_spec start_time tolerance subs none ⊤ (Or.inl ⟨rfl, rfl⟩)
  have hdef : find_closest_sub start_time subs tolerance
      = fcsGo start_time tolerance subs none ⊤ := rfl
  constructor
  · constructor
    · intro hs
      rcases Option.isSome_iff_exists.mp hs with ⟨s, hseq⟩
      rw [hdef] at hseq
      obtain ⟨helig, _, _, hpos⟩ := H.2 s hseq
      rcases hpos with hbad | ⟨l1, l2, hl, _, _⟩
      · exact absurd hbad (by simp)
      · exact ⟨s, by rw [hl]; simp, helig⟩
    · rintro ⟨s, hsm, hw⟩
      by_contra hns
      have hnone : fcsGo start_time tolerance subs none ⊤ = none := by
        rw [← hdef]
        exact Option.not_isSome_iff_eq_none.mp hns
      exact (H.1.mp hnone).2 s hsm hw
  · intro s hs
    rw [hdef] at hs
    obtain ⟨helig, hmin, _, hpos⟩ := H.2 s hs
    rcases hpos with hbad | ⟨l1, l2, hl, _, hall⟩
    · exact absurd hbad (by simp)
    · exact ⟨helig, hmin, l1, l2, hl, hall⟩

/-- Demo record list for the C1 witness. -/
def c1subs : List SubRecord := [⟨1000, 2000, "a"⟩, ⟨1200, 2200, "b"⟩]

theorem find_closest_sub_correct_witness :
    (find_closest_sub 1100 c1subs 1000).isSome :=
  (find_closest_sub_correct 1100 1000 c1subs).1.mpr
    ⟨⟨1000, 2000, "a"⟩, by decide, by decide⟩

/-! String primitives used by app.py, embedded from Python semantics. -/

/-- Whitespace characters removed by Python `str.strip()`. -/
def isPyWs (c : Char) : Bool :=
  c = ' ' || c = '\t' || c = '\n' || c = '\r' || c = '\x0b' || c = '\x0c'

/-- Python `str.strip()` on a character list. -/
def stripL (l : List Char) : List Char :=
  ((l.dropWhile isPyWs).reverse.dropWhile isPyWs).reverse

/-- Python `str.strip()`. -/
def pyStrip (s : String) : String := ⟨stripL s.data⟩

/-- Characters matched by the regex class `[ \n]` of app.py lines 125 and 155. -/
def isSpNl (c : Char) : Bool := c = ' ' || c = '\n'

/-- Scanner for `re.sub(r"[ \n]+", " ", ·)`: `inRun` records whether the
previous character belonged to a `[ \n]` run already replaced by a space. -/
def collapseGo (inRun : Bool) : List Char → List Char
  | [] => []
  | c :: rest =>
    if isSpNl c then
      if inRun then collapseGo true rest else ' ' :: collapseGo true rest
    else c :: collapseGo false rest

/-- Embedding of `re.sub(r"[ \n]+", " ", s)`: each maximal run of spaces and newlines
becomes a single space. -/
def collapseSpaces (s : String) : String := ⟨collapseGo false s.data⟩

/-- Python `str.replace(old, new)` on lists: leftmost-first,
non-overlapping. The fuel argument only makes the recursion structural;
`fuel ≥ l.length` holds at the call site in `pyReplace`, and each step
consumes at least one character, so the fuel never runs out. -/
def replaceFuel (old new : List Char) : Nat → List Char → List Char
  | 0, l => l
  | _ + 1, [] => []
  | fuel + 1, c :: rest =>
    if old ≠ [] ∧ old.isPrefixOf (c :: rest) then
      new ++ replaceFuel old new fuel ((c :: rest).drop old.length)
    else
      c :: replaceFuel old new fuel rest

/-- Python `s.replace(old, new)` (all call sites in app.py pass a
nonempty `old`). -/
def pyReplace (s old new : String) : String :=
  ⟨replaceFuel old.data new.data s.data.length s.data⟩

theorem data_pyReplace (s old new : String) :
    (pyReplace s old new).data = replaceFuel old.data new.data s.data.length s.data := rfl

theorem data_collapseSpaces (s : String) :
    (collapseSpaces s).data = collapseGo false s.data := rfl

theorem data_pyStrip (s : String) : (pyStrip s).data = stripL s.data := rfl

/-- Text normalization applied to the matched primary record text
(app.py lines 124-128): strip, then collapse space/newline runs, then
delete the literal `<i>` and `</i>` tags. -/
def normalize_text (s : String) : String :=
  pyReplace (pyReplace (collapseSpaces (pyStrip s)) "<i>" "") "</i>" ""

/-- Text normalization applied to the translated text (app.py lines
153-159): collapse runs, then strip, then delete the tags. -/
def normalize_translation (s : String) : String :=
  pyReplace (pyReplace (pyStrip (collapseSpaces s)) "<i>" "") "</i>" ""

theorem mem_replaceFuel {c : Char} (old new : List Char) :
    ∀ (fuel : Nat) (l : List Char), c ∈ replaceFuel old new fuel l → c ∈ new ∨ c ∈ l := by
  intro fuel
  induction fuel with
  | zero => intro l h; exact Or.inr h
  | succ f ihf =>
    intro l h
    match l with
    | [] => simp [replaceFuel] at h
    | x :: rest =>
      rw [replaceFuel] at h
      split at h
      · rcases List.mem_append.mp h with hn | hr
        · exact Or.inl hn
        · rcases ihf _ hr with hn | hl
          · exact Or.inl hn
          · exact Or.inr (List.mem_of_mem_drop hl)
      · rcases List.mem_cons.mp h with rfl | hr
        · exact Or.inr (by simp)
        · rcases ihf _ hr with hn | hl
          · exact Or.inl hn
          · exact Or.inr (List.mem_cons_of_mem _ hl)

theorem mem_collapseGo {c : Char} :
    ∀ (l : List Char) (b : Bool), c ∈ collapseGo b l → c = ' ' ∨ (c ∈ l ∧ isSpNl c = false) := by
  intro l
  induction l with
  | nil => intro b h; simp [collapseGo] at h
  | cons x rest ih =>
    intro b h
    by_cases hx : isSpNl x = true
    · cases b with
      | true =>
        rw [collapseGo, if_pos hx, if_pos rfl] at h
        rcases ih true h with h1 | h2
        · exact Or.inl h1
        · exact Or.inr ⟨List.mem_cons_of_mem _ h2.1, h2.2⟩
      | false =>
        rw [collapseGo, if_pos hx] at h
        simp only [Bool.false_eq_true, if_false] at h
        rcases List.mem_cons.mp h with rfl | hr
        · exact Or.inl rfl
        · rcases ih true hr with h1 | h2
          · exact Or.inl h1
          · exact Or.inr ⟨List.mem_cons_of_mem _ h2.1, h2.2⟩
    · rw [collapseGo, if_neg hx] at h
      rcases List.mem_cons.mp h with rfl | hr
      · exact Or.inr ⟨by simp, by simpa using hx⟩
      · rcases ih false hr with h1 | h2
        · exact Or.inl h1
        · exact Or.inr ⟨List.mem_cons_of_mem _ h2.1, h2.2⟩

theorem normalize_text_no_newline (s : String) : '\n' ∉ (normalize_text s).data := by
  intro h
  rw [normalize_text, data_pyReplace] at h
  rcases mem_replaceFuel _ _ _ _ h with h1 | h1
  · simp at h1
  rw [data_pyReplace] at h1
  rcases mem_replaceFuel _ _ _ _ h1 with h2 | h2
  · simp at h2
  rw [data_collapseSpaces] at h2
  rcases mem_collapseGo _ _ h2 with h3 | h3
  · exact absurd h3 (by decide)
  · exact absurd h3.2 (by decide)

/-- C4 counterexample: on input `"a <i>"` the normalizer returns `"a "`,
whose trailing space survives, refuting the claim that for every input
string the output has no leading or trailing whitespace. -/
theorem normalize_text_trailing_ws_cex :
    normalize_text "a <i>" = "a " ∧ pyStrip (normalize_text "a <i>") ≠ normalize_text "a <i>" := by
  constructor
  · rfl
  · decide

/-- C4 (amended): the normalizer strips and collapses whitespace before
removing the literal `<i>` and `</i>` tags, so its output never contains
a newline, and normalizing `"Hello<i>\n  world</i>  "` yields exactly
`"Hello world"`; tag removal happening last, the output may retain
leading/trailing spaces or uncollapsed space runs created by deleting a
tag. -/
theorem normalize_text_amended :
    normalize_text "Hello<i>\n  world</i>  " = "Hello world" ∧
    ∀ s, '\n' ∉ (normalize_text s).data :=
  ⟨by rfl, normalize_text_no_newline⟩

theorem normalize_text_amended_witness : '\n' ∉ (normalize_text "x\ny").data :=
  normalize_text_amended.2 "x\ny"

/-! Path primitives (`os.path` on the POSIX-style relative paths this
server works with). -/

/-- Python `str.endswith` / suffix test. -/
def endsWithStr (s pat : String) : Bool := pat.data.isSuffixOf s.data

/-- Model of `os.path.basename`: the part after the last slash. -/
def basename (p : String) : String :=
  ⟨p.data.foldl (fun acc c => if c = '/' then [] else acc ++ [c]) []⟩

/-- Model of `os.path.dirname`: the part before the last slash (empty when there
is no slash, matching `os.path.dirname` on the relative paths used
here). -/
def dirname (p : String) : String :=
  if p.data.contains '/' then ⟨((p.data.reverse.dropWhile (fun c => c != '/')).drop 1).reverse⟩
  else ""

/-- Model of `os.path.join` on the relative POSIX paths used here. -/
def joinPath (d f : String) : String :=
  if d = "" then f else if endsWithStr d "/" then d ++ f else d ++ "/" ++ f

/-! The streaming search engine (app.py lines 100-205), with the
filesystem and the socket as environment parameters and an event trace
recording file-open attempts and successful frame writes in program
order. -/

/-- Environment: `walk directory` is the flattened `os.walk` output as
`(root, files)` pairs (the unused `dirs` component is dropped),
`exists?` is `os.path.exists`, `openSrt` is `pysrt.open` (with `.error`
modelling a raised parse exception), and the n-th `conn.sendall` call of
a session raises iff `sendOk n = false`. -/
structure Env where
  walk : String → List (String × List String)
  exists? : String → Bool
  openSrt : String → Except String (List SubRecord)
  sendOk : Nat → Bool

/-- Observable effects: a `pysrt.open` attempt on a path, and a
successfully transmitted `conn.sendall` payload. -/
inductive Event where
  | opened : String → Event
  | sent : String → Event
deriving Repr, DecidableEq

/-- Mutable state of one `stream_subtitle_search` run: `count` and
`found` from app.py lines 108-109, the index of the next `sendall`
attempt on the session's connection, and the accumulated event trace. -/
structure SState where
  count : Nat
  found : Bool
  sendIdx : Nat
  events : List Event
deriving Repr, DecidableEq

/-- Function `is_russian` (app.py lines 23-24): some character outside 7-bit
ASCII. -/
def is_russian (text : String) : Bool := text.data.any (fun c => 127 < c.toNat)

/-- Python `str.lower()` (ASCII case folding; the folding of characters
beyond ASCII is immaterial to every claim checked here). -/
def pyLower (s : String) : String := ⟨s.data.map Char.toLower⟩

/-- Python `str.upper()`. -/
def pyUpper (s : String) : String := ⟨s.data.map Char.toUpper⟩

/-- Substring scan: does `n` occur contiguously in the second list? -/
def containsSub (n : List Char) : List Char → Bool
  | [] => n.isEmpty
  | c :: rest => n.isPrefixOf (c :: rest) || containsSub n rest

/-- Python `needle in hay` substring test. -/
def strContains (hay needle : String) : Bool := containsSub needle.data hay.data

/-- Rendering `str(sub.start)` of a subtitle time; an injective textual
rendering standing in for `SubRipTime.__str__` (no claim depends on the
exact digits format). -/
def timeStr (n : Int) : String := toString n

/-- Rendering of an optional time; the `none` case mirrors `str(None)`
and is unreachable in the branch that uses it. -/
def optTimeStr : Option Int → String
  | some n => timeStr n
  | none => "None"

/-- Function `find_translation_in_other_lang` (app.py lines 46-76). The
`directory` parameter is unused, exactly as in the source. Returns the
open events it performs and either the raised exception (`.error`, when
`pysrt.open` on the sibling file raises) or the 4-tuple of the source:
all-`none` when the sibling file is missing or no record is within
tolerance, otherwise the stripped text, start, end and sibling path. -/
def find_translation_in_other_lang (env : Env) (directory : String) (start_time : Int)
    (file_path from_lang_suffix to_lang_suffix : String) (tolerance : Int) :
    List Event × Except String (Option String × Option Int × Option Int × Option String) :=
  let directory_path := dirname file_path
  let file_name := basename file_path
  let other_lang_file_name := pyReplace file_name ("_" ++ from_lang_suffix) ("_" ++ to_lang_suffix)
  let other_lang_file_path := joinPath directory_path other_lang_file_name
  if env.exists? other_lang_file_path then
    match env.openSrt other_lang_file_path with
    | Except.error e => ([Event.opened other_lang_file_path], Except.error e)
    | Except.ok subs =>
      match find_closest_sub start_time subs tolerance with
      | some closest_sub =>
        ([Event.opened other_lang_file_path],
          Except.ok (some (pyStrip closest_sub.text), some closest_sub.start,
            some closest_sub.«end», some other_lang_file_path))
      | none => ([Event.opened other_lang_file_path], Except.ok (none, none, none, none))
  else ([], Except.ok (none, none, none, none))

/-- One language block of a result, mirroring the dicts of app.py lines
130-138 and 160-166. -/
structure LangInfo where
  language : String
  file : String
  start_time : String
  end_time : String
  text : String
deriving Repr, DecidableEq

/-- Function `format_single_result` (app.py lines 79-97): the `"\n".join(...)` of
the formatted lines, with the translation block replaced by the
no-translation notice when `result["translation"]` is `None`. -/
def format_single_result (orig : LangInfo) (translation : Option LangInfo) : String :=
  let headO := orig.language ++ " (" ++ orig.file ++ ") " ++ orig.start_time
    ++ " -> " ++ orig.end_time
  let sep := String.mk (List.replicate 80 '-')
  match translation with
  | some trB =>
    headO ++ "\n" ++ (orig.text ++ "\n") ++ "\n"
      ++ (trB.language ++ " (" ++ trB.file ++ ") " ++ trB.start_time
        ++ " -> " ++ trB.end_time)
      ++ "\n" ++ (trB.text ++ "\n") ++ "\n" ++ sep
  | none =>
    headO ++ "\n" ++ (orig.text ++ "\n") ++ "\n"
      ++ "No corresponding translation found.\n" ++ "\n" ++ sep

/-- Outcome of processing one record (or a tail of records) of a file:
keep scanning, the `return True` of app.py line 174 ran, or an exception
escaped to the per-file handler of line 175. -/
inductive StepRes where
  | cont : SState → StepRes
  | capstop : SState → StepRes
  | err : SState → StepRes
deriving Repr, DecidableEq

/-- Body of the `for sub in subs` loop (app.py lines 117-174) on one
record. On a substring match: set `found_matches`, bump `count`,
normalize, resolve the translation (whose `pysrt.open` may raise),
build and send the frame (which may raise), then check the cap. -/
def processSub (env : Env) (directory search_string lang_suffix other_lang_suffix
    file_path : String) (sub : SubRecord) (st : SState) : StepRes :=
  if strContains (pyLower sub.text) (pyLower search_string) then
    let st1 : SState := { st with found := true, count := st.count + 1 }
    let text := normalize_text sub.text
    let orig : LangInfo :=
      { language := pyUpper lang_suffix, file := file_path,
        start_time := timeStr sub.start, end_time := timeStr sub.«end», text := text }
    let ft := find_translation_in_other_lang env directory sub.start file_path
      lang_suffix other_lang_suffix 1000
    let st2 : SState := { st1 with events := st1.events ++ ft.1 }
    match ft.2 with
    | Except.error _ => StepRes.err st2
    | Except.ok (translated_text, tstart, tend, tpath) =>
      let translation : Option LangInfo :=
        match translated_text with
        | some t =>
          if t ≠ "" then
            some { language := pyUpper other_lang_suffix, file := tpath.getD "",
                   start_time := optTimeStr tstart, end_time := optTimeStr tend,
                   text := normalize_translation t }
          else none
        | none => none
      let frame := format_single_result orig translation
      if env.sendOk st2.sendIdx then
        let st3 : SState :=
          { st2 with sendIdx := st2.sendIdx + 1, events := st2.events ++ [Event.sent frame] }
        if SEARCH_LIMIT ≤ st3.count then StepRes.capstop st3 else StepRes.cont st3
      else StepRes.err { st2 with sendIdx := st2.sendIdx + 1 }
  else StepRes.cont st

/-- The `for sub in subs` loop over the remaining records. -/
def processSubs (env : Env) (directory search_string lang_suffix other_lang_suffix
    file_path : String) (subs : List SubRecord) (st : SState) : StepRes :=
  match subs with
  | [] => StepRes.cont st
  | sub :: rest =>
    match processSub env directory search_string lang_suffix other_lang_suffix
        file_path sub st with
    | StepRes.cont st' =>
      processSubs env directory search_string lang_suffix other_lang_suffix file_path rest st'
    | StepRes.capstop st' => StepRes.capstop st'
    | StepRes.err st' => StepRes.err st'

/-- Outcome of processing one file (or what follows it): keep walking,
or the `return True` of app.py line 174 ran. -/
inductive FileRes where
  | cont : SState → FileRes
  | capstop : SState → FileRes
deriving Repr, DecidableEq

/-- The `try` block around one file (app.py lines 115-176): open the
file, scan its records; any exception (`pysrt.open`, the translation
lookup, or `sendall`) is caught by line 175 and the walk continues. -/
def processFile (env : Env) (directory search_string lang_suffix other_lang_suffix
    file_path : String) (st : SState) : FileRes :=
  let st0 : SState := { st with events := st.events ++ [Event.opened file_path] }
  match env.openSrt file_path with
  | Except.error _ => FileRes.cont st0
  | Except.ok subs =>
    match processSubs env directory search_string lang_suffix other_lang_suffix
        file_path subs st0 with
    | StepRes.cont st' => FileRes.cont st'
    | StepRes.err st' => FileRes.cont st'
    | StepRes.capstop st' => FileRes.capstop st'

/-- The `for file in files` loop (app.py lines 112-176), filtering by
the `_{lang_suffix}.srt` naming convention. -/
def processFiles (env : Env) (directory search_string lang_suffix other_lang_suffix
    root : String) (files : List String) (st : SState) : FileRes :=
  match files with
  | [] => FileRes.cont st
  | f :: rest =>
    if endsWithStr f ("_" ++ lang_suffix ++ ".srt") then
      match processFile env directory search_string lang_suffix other_lang_suffix
          (joinPath root f) st with
      | FileRes.cont st' =>
        processFiles env directory search_string lang_suffix other_lang_suffix root rest st'
      | FileRes.capstop st' => FileRes.capstop st'
    else processFiles env directory search_string lang_suffix other_lang_suffix root rest st

/-- The `for root, dirs, files in os.walk(directory)` loop (app.py line
111). -/
def processWalk (env : Env) (directory search_string lang_suffix other_lang_suffix : String)
    (walk : List (String × List String)) (st : SState) : FileRes :=
  match walk with
  | [] => FileRes.cont st
  | (root, files) :: rest =>
    match processFiles env directory search_string lang_suffix other_lang_suffix
        root files st with
    | FileRes.cont st' =>
      processWalk env directory search_string lang_suffix other_lang_suffix rest st'
    | FileRes.capstop st' => FileRes.capstop st'

/-- Function `stream_subtitle_search(directory, search_string, conn)` (app.py
lines 100-178); `sendIdx0` is the number of `sendall` calls the session
already made on this connection. Returns the Python return value and the
final state. -/
def stream_subtitle_search (env : Env) (directory search_string : String) (sendIdx0 : Nat) :
    Bool × SState :=
  let lp := if is_russian search_string then ("ru", "en") else ("en", "ru")
  let st0 : SState := { count := 0, found := false, sendIdx := sendIdx0, events := [] }
  match processWalk env directory search_string lp.1 lp.2 (env.walk directory) st0 with
  | FileRes.capstop st' => (true, st')
  | FileRes.cont st' => (st'.found, st')

/-- One round-trip of `handle_client` (app.py lines 191-199) for an
already-stripped nonempty query: run the search, send the no-match
notice when nothing was found, then send the end marker. Returns the
events of this round-trip, whether a `sendall` raised (ending the
session via the handler of line 201), and the next send index. -/
def handle_one_query (env : Env) (directory q : String) (sendIdx0 : Nat) :
    List Event × Bool × Nat :=
  let r := stream_subtitle_search env directory q sendIdx0
  let found_matches := r.1
  let st := r.2
  if found_matches then
    if env.sendOk st.sendIdx then
      (st.events ++ [Event.sent "\n<END>\n"], false, st.sendIdx + 1)
    else (st.events, true, st.sendIdx + 1)
  else
    if env.sendOk st.sendIdx then
      if env.sendOk (st.sendIdx + 1) then
        (st.events ++ [Event.sent "No matching subtitles found.", Event.sent "\n<END>\n"],
          false, st.sendIdx + 2)
      else (st.events ++ [Event.sent "No matching subtitles found."], true, st.sendIdx + 2)
    else (st.events, true, st.sendIdx + 1)

/-- The `while True` receive loop of `handle_client` (app.py lines
184-199) over the successive received payloads: each is stripped, an
empty result breaks the loop, and a raised `sendall` ends the loop via
the handler of line 201. -/
def handle_client_loop (env : Env) (directory : String) :
    List String → Nat → List Event
  | [], _ => []
  | q :: rest, idx =>
    if pyStrip q = "" then []
    else
      let r := handle_one_query env directory (pyStrip q) idx
      if r.2.1 then r.1 else r.1 ++ handle_client_loop env directory rest r.2.2

/-- Function `handle_client` (app.py lines 181-205): the receive loop, then the
`finally` block always closes the connection (the second component is
that closure). -/
def handle_client (env : Env) (directory : String) (queries : List String) :
    List Event × Bool :=
  (handle_client_loop env directory queries 0, true)

/-! Cap enforcement (claim C2). -/

/-- Is an event a successfully written frame? -/
def isSentEv : Event → Bool
  | Event.sent _ => true
  | Event.opened _ => false

/-- Number of successfully written frames in a trace. -/
def sentCount (evs : List Event) : Nat := evs.countP isSentEv

theorem sentCount_append (a b : List Event) :
    sentCount (a ++ b) = sentCount a + sentCount b := by
  simp [sentCount, List.countP_append]

/-- Invariant threaded through a running search: written frames never
outnumber counted matches, and while the scan is still going fewer than
`SEARCH_LIMIT` frames have been written. -/
def capInv (st : SState) : Prop :=
  sentCount st.events ≤ st.count ∧ sentCount st.events < SEARCH_LIMIT

/-- Post-state facts after processing records. -/
def capPostStep : StepRes → Prop
  | StepRes.cont st => capInv st
  | StepRes.err st => capInv st
  | StepRes.capstop st =>
      sentCount st.events ≤ SEARCH_LIMIT ∧ sentCount st.events ≤ st.count ∧
        ∃ pre f, st.events = pre ++ [Event.sent f]

/-- Post-state facts after processing files. -/
def capPostFile : FileRes → Prop
  | FileRes.cont st => capInv st
  | FileRes.capstop st =>
      sentCount st.events ≤ SEARCH_LIMIT ∧ sentCount st.events ≤ st.count ∧
        ∃ pre f, st.events = pre ++ [Event.sent f]

theorem sentCount_sent_one (f : String) : sentCount [Event.sent f] = 1 := rfl

theorem sentCount_opened_zero (p : String) : sentCount [Event.opened p] = 0 := rfl

theorem ft_sentCount (env : Env) (directory : String) (T : Int) (fp frm tos : String)
    (tol : Int) :
    sentCount (find_translation_in_other_lang env directory T fp frm tos tol).1 = 0 := by
  simp only [find_translation_in_other_lang]
  split
  · split
    · exact sentCount_opened_zero _
    · split
      · exact sentCount_opened_zero _
      · exact sentCount_opened_zero _
  · rfl

theorem processSub_cap (env : Env) (directory q lang other fp : String) (sub : SubRecord)
    (st : SState) (h : capInv st) :
    capPostStep (processSub env directory q lang other fp sub st) := by
  have hft := ft_sentCount env directory sub.start fp lang other 1000
  have h1 := h.1
  have h2 := h.2
  simp only [processSub]
  split
  · split
    · -- translation lookup raised: exception state
      refine ⟨?_, ?_⟩
      · simp only [sentCount_append, hft]
        omega
      · simp only [sentCount_append, hft]
        omega
    · -- translation lookup returned a 4-tuple
      split
      · -- sendall succeeded
        split
        · -- cap reached: return True
          rename_i hcap
          refine ⟨?_, ?_, ⟨_, _, rfl⟩⟩
          · simp only [sentCount_append, hft, sentCount_sent_one]
            omega
          · simp only [sentCount_append, hft, sentCount_sent_one]
            omega
        · -- below cap: keep scanning
          rename_i hnotcap
          refine ⟨?_, ?_⟩
          · simp only [sentCount_append, hft, sentCount_sent_one]
            omega
          · simp only [sentCount_append, hft, sentCount_sent_one]
            omega
      · -- sendall raised: exception state
        refine ⟨?_, ?_⟩
        · simp only [sentCount_append, hft]
          omega
        · simp only [sentCount_append, hft]
          omega
  · exact h

theorem processSubs_cap (env : Env) (directory q lang other fp : String)
    (subs : List SubRecord) :
    ∀ st : SState, capInv st →
      capPostStep (processSubs env directory q lang other fp subs st) := by
  induction subs with
  | nil => intro st h; exact h
  | cons sub rest ih =>
    intro st h
    have h1 := processSub_cap env directory q lang other fp sub st h
    simp only [processSubs]
    cases hps : processSub env directory q lang other fp sub st with
    | cont st' =>
      rw [hps] at h1
      exact ih st' h1
    | capstop st' =>
      rw [hps] at h1
      exact h1
    | err st' =>
      rw [hps] at h1
      exact h1

theorem processFile_cap (env : Env) (directory q lang other fp : String) (st : SState)
    (h : capInv st) :
    capPostFile (processFile env directory q lang other fp st) := by
  have h0 : capInv { st with events := st.events ++ [Event.opened fp] } := by
    refine ⟨?_, ?_⟩ <;> simp [sentCount_append, sentCount, isSentEv, List.countP_cons] <;>
      [exact h.1; exact h.2]
  simp only [processFile]
  split
  · exact h0
  · rename_i subs _
    have h1 := processSubs_cap env directory q lang other fp subs _ h0
    cases hps : processSubs env directory q lang other fp subs
        { st with events := st.events ++ [Event.opened fp] } with
    | cont st' => rw [hps] at h1; exact h1
    | err st' => rw [hps] at h1; exact h1
    | capstop st' => rw [hps] at h1; exact h1

theorem processFiles_cap (env : Env) (directory q lang other root : String)
    (files : List String) :
    ∀ st : SState, capInv st →
      capPostFile (processFiles env directory q lang other root files st) := by
  induction files with
  | nil => intro st h; exact h
  | cons f rest ih =>
    intro st h
    simp only [processFiles]
    split
    · have h1 := processFile_cap env directory q lang other (joinPath root f) st h
      cases hpf : processFile env directory q lang other (joinPath root f) st with
      | cont st' =>
        rw [hpf] at h1
        exact ih st' h1
      | capstop st' =>
        rw [hpf] at h1
        exact h1
    · exact ih st h

theorem processWalk_cap (env : Env) (directory q lang other : String)
    (walk : List (String × List String)) :
    ∀ st : SState, capInv st →
      capPostFile (processWalk env directory q lang other walk st) := by
  induction walk with
  | nil => intro st h; exact h
  | cons rootFiles rest ih =>
    intro st h
    obtain ⟨root, files⟩ := rootFiles
    simp only [processWalk]
    have h1 := processFiles_cap env directory q lang other root files st h
    cases hpf : processFiles env directory q lang other root files st with
    | cont st' =>
      rw [hpf] at h1
      exact ih st' h1
    | capstop st' =>
      rw [hpf] at h1
      exact h1

/-- C2 (amended): every query writes at most 12 match frames; if the
12th frame is written, that write is the engine's last action (its trace
ends with that frame, so no further record, file or directory is
examined) and the engine returns `true`. However, because the cap check
(app.py line 173) only runs after a successful `sendall`, an exception
between the counter increment and the check lets the counter pass 12
while the walk continues — see the counterexample. -/
theorem stream_subtitle_search_cap_amended (env : Env) (directory q : String) (i : Nat) :
    sentCount (stream_subtitle_search env directory q i).2.events ≤ SEARCH_LIMIT ∧
    (sentCount (stream_subtitle_search env directory q i).2.events = SEARCH_LIMIT →
      (stream_subtitle_search env directory q i).1 = true ∧
      ∃ pre f, (stream_subtitle_search env directory q i).2.events = pre ++ [Event.sent f]) := by
  have h0 : capInv { count := 0, found := false, sendIdx := i, events := [] } := by
    refine ⟨?_, ?_⟩ <;> simp [sentCount, SEARCH_LIMIT]
  have H := processWalk_cap env directory q
    (if is_russian q then ("ru", "en") else ("en", "ru")).1
    (if is_russian q then ("ru", "en") else ("en", "ru")).2
    (env.walk directory) { count := 0, found := false, sendIdx := i, events := [] } h0
  simp only [stream_subtitle_search]
  cases hw : processWalk env directory q
      (if is_russian q then ("ru", "en") else ("en", "ru")).1
      (if is_russian q then ("ru", "en") else ("en", "ru")).2
      (env.walk directory) { count := 0, found := false, sendIdx := i, events := [] } with
  | cont st' =>
    rw [hw] at H
    refine ⟨le_of_lt H.2, ?_⟩
    intro h12
    exact absurd h12 (Nat.ne_of_lt H.2)
  | capstop st' =>
    rw [hw] at H
    exact ⟨H.1, fun _ => ⟨rfl, H.2.2⟩⟩

/-- Environment for the C2 counterexample: thirteen one-record matching
files; the twelfth `sendall` (index 11) raises, every sibling lookup
misses. -/
def c2env : Env :=
  { walk := fun _ => [("d",
      ["f01_en.srt", "f02_en.srt", "f03_en.srt", "f04_en.srt", "f05_en.srt", "f06_en.srt",
       "f07_en.srt", "f08_en.srt", "f09_en.srt", "f10_en.srt", "f11_en.srt", "f12_en.srt",
       "f13_en.srt"])],
    exists? := fun _ => false,
    openSrt := fun _ => Except.ok [⟨0, 0, "match me"⟩],
    sendOk := fun n => n != 11 }

/-- C2 counterexample: in `c2env` the per-query counter reaches 12 while
scanning the twelfth file, but its frame's `sendall` raises, the cap
check is skipped, and the walk goes on to examine the thirteenth file
(its open event is in the trace and the counter ends at 13) — refuting
the claim that once the counter reaches 12 the function returns
immediately with no further records, files or directories examined. -/
theorem stream_subtitle_search_cap_cex :
    (stream_subtitle_search c2env "d" "match" 0).2.count = 13 ∧
    sentCount (stream_subtitle_search c2env "d" "match" 0).2.events = 12 ∧
    Event.opened "d/f13_en.srt" ∈ (stream_subtitle_search c2env "d" "match" 0).2.events ∧
    (stream_subtitle_search c2env "d" "match" 0).1 = true := by
  refine ⟨?_, ?_, ?_, ?_⟩ <;> decide

/-- Environment for the C2 witness: twelve one-record matching files and
a healthy connection. -/
def c2wenv : Env :=
  { walk := fun _ => [("d",
      ["g01_en.srt", "g02_en.srt", "g03_en.srt", "g04_en.srt", "g05_en.srt", "g06_en.srt",
       "g07_en.srt", "g08_en.srt", "g09_en.srt", "g10_en.srt", "g11_en.srt", "g12_en.srt"])],
    exists? := fun _ => false,
    openSrt := fun _ => Except.ok [⟨0, 0, "hit"⟩],
    sendOk := fun _ => true }

theorem stream_subtitle_search_cap_amended_witness :
    (stream_subtitle_search c2wenv "d" "hit" 0).1 = true :=
  ((stream_subtitle_search_cap_amended c2wenv "d" "hit" 0).2 (by decide)).1

/-! Skipping a corrupt primary file (claim C6). -/

/-- C6: a primary-language file whose `pysrt.open` raises is skipped and
the walk continues over the remaining files and directories from the
same state; the only state change is the recorded open attempt (the
`print` log of app.py line 176 has no effect on the search). One bad
file never aborts the search. -/
theorem bad_primary_file_skipped (env : Env) (directory q lang other root f : String)
    (files : List String) (w : List (String × List String)) (st : SState) (e : String)
    (hsuf : endsWithStr f ("_" ++ lang ++ ".srt") = true)
    (hopen : env.openSrt (joinPath root f) = Except.error e) :
    processWalk env directory q lang other ((root, f :: files) :: w) st =
      processWalk env directory q lang other ((root, files) :: w)
        { st with events := st.events ++ [Event.opened (joinPath root f)] } := by
  simp only [processWalk, processFiles, hsuf, if_true, processFile, hopen]

/-- Environment for the C6 witness: every open raises. -/
def c6env : Env :=
  { walk := fun _ => [], exists? := fun _ => false,
    openSrt := fun _ => Except.error "corrupt", sendOk := fun _ => true }

theorem bad_primary_file_skipped_witness :
    processWalk c6env "d" "q" "en" "ru" [("d", ["m_en.srt"])]
        { count := 0, found := false, sendIdx := 0, events := [] } =
      processWalk c6env "d" "q" "en" "ru" [("d", [])]
        { count := 0, found := false, sendIdx := 0,
          events := [Event.opened "d/m_en.srt"] } :=
  bad_primary_file_skipped c6env "d" "q" "en" "ru" "d" "m_en.srt" [] []
    { count := 0, found := false, sendIdx := 0, events := [] } "corrupt"
    (by decide) rfl

/-! The derived sibling path (claims C7 and C10). -/

/-- Path of the secondary-language sibling file: substitute the
substring `_{from}` with `_{to}` throughout the base name, inside the
same directory (app.py lines 54-60). -/
def derivedSib (file_path from_lang_suffix to_lang_suffix : String) : String :=
  joinPath (dirname file_path)
    (pyReplace (basename file_path) ("_" ++ from_lang_suffix) ("_" ++ to_lang_suffix))

/-- C7: the resolver consults exactly the derived sibling path: when
that file does not exist it returns the all-`None` tuple without opening
anything (an absent translation, not an error), and when it exists the
derived path is precisely the file it opens. -/
theorem find_translation_derived_path (env : Env) (directory : String) (T : Int)
    (file_path frm tos : String) (tol : Int) :
    (env.exists? (derivedSib file_path frm tos) = false →
      find_translation_in_other_lang env directory T file_path frm tos tol =
        ([], Except.ok (none, none, none, none))) ∧
    (env.exists? (derivedSib file_path frm tos) = true →
      (find_translation_in_other_lang env directory T file_path frm tos tol).1 =
        [Event.opened (derivedSib file_path frm tos)]) := by
  constructor
  · intro hne
    simp only [find_translation_in_other_lang]
    rw [show joinPath (dirname file_path)
        (pyReplace (basename file_path) ("_" ++ frm) ("_" ++ tos)) =
        derivedSib file_path frm tos from rfl, hne]
    simp
  · intro hex
    simp only [find_translation_in_other_lang]
    rw [show joinPath (dirname file_path)
        (pyReplace (basename file_path) ("_" ++ frm) ("_" ++ tos)) =
        derivedSib file_path frm tos from rfl, hex]
    simp only [if_true]
    split
    · rfl
    · split
      · rfl
      · rfl

/-- Environment for the C7 witness: no file exists. -/
def c7env : Env :=
  { walk := fun _ => [], exists? := fun _ => false,
    openSrt := fun _ => Except.ok [], sendOk := fun _ => true }

theorem find_translation_derived_path_witness :
    find_translation_in_other_lang c7env "subs" 0 "subs/movie_en.srt" "en" "ru" 1000 =
      ([], Except.ok (none, none, none, none)) :=
  (find_translation_derived_path c7env "subs" 0 "subs/movie_en.srt" "en" "ru" 1000).1 rfl

/-- Environment for C10: only the all-occurrences substitution result
exists. -/
def c10env : Env :=
  { walk := fun _ => [], exists? := fun p => p == "shows/dialog_ruhanced_ru.srt",
    openSrt := fun _ => Except.ok [], sendOk := fun _ => true }

/-- C10: `str.replace` substitutes every occurrence of `_en`, so for
primary file `shows/dialog_enhanced_en.srt` the resolver derives and
probes `shows/dialog_ruhanced_ru.srt` (the recorded open event), not
just the trailing language token. -/
theorem find_translation_replaces_every_occurrence :
    pyReplace "dialog_enhanced_en.srt" "_en" "_ru" = "dialog_ruhanced_ru.srt" ∧
    derivedSib "shows/dialog_enhanced_en.srt" "en" "ru" = "shows/dialog_ruhanced_ru.srt" ∧
    find_translation_in_other_lang c10env "shows" 0 "shows/dialog_enhanced_en.srt"
        "en" "ru" 1000 =
      ([Event.opened "shows/dialog_ruhanced_ru.srt"],
        Except.ok (none, none, none, none)) := by
  refine ⟨?_, ?_, ?_⟩ <;> rfl

/-! Exception flow of the secondary-file parse (claim C3). -/

/-- Value of the translation lookup when the sibling exists but its
parse raises: the open event and the propagated exception. -/
theorem ft_error_value (env : Env) (directory : String) (T : Int)
    (file_path frm tos : String) (tol : Int) (e : String)
    (hex : env.exists? (derivedSib file_path frm tos) = true)
    (hopen : env.openSrt (derivedSib file_path frm tos) = Except.error e) :
    find_translation_in_other_lang env directory T file_path frm tos tol =
      ([Event.opened (derivedSib file_path frm tos)], Except.error e) := by
  simp only [find_translation_in_other_lang]
  rw [show joinPath (dirname file_path)
      (pyReplace (basename file_path) ("_" ++ frm) ("_" ++ tos)) =
      derivedSib file_path frm tos from rfl, hex, hopen]
  simp

/-- Environment for the C3 counterexample: one primary file with two
matching records, a sibling translation file that exists but is
corrupt. -/
def c3env : Env :=
  { walk := fun _ => [("d", ["m_en.srt"])],
    exists? := fun p => p == "d/m_ru.srt",
    openSrt := fun p =>
      if p == "d/m_ru.srt" then Except.error "corrupt"
      else Except.ok [⟨0, 0, "hello one"⟩, ⟨5000, 6000, "hello two"⟩],
    sendOk := fun _ => true }

/-- C3 counterexample: both records of `d/m_en.srt` match the query, so
under the claim both frames would still be emitted (with the
no-translation notice). Instead the corrupt sibling parse raises out of
the lookup into the per-file handler: no frame at all is sent and the
second record is never examined (the counter stops at 1). -/
theorem secondary_parse_failure_cex :
    (stream_subtitle_search c3env "d" "hello" 0).2.count = 1 ∧
    sentCount (stream_subtitle_search c3env "d" "hello" 0).2.events = 0 ∧
    (stream_subtitle_search c3env "d" "hello" 0).1 = true := by
  refine ⟨?_, ?_, ?_⟩ <;> decide

/-- C3 (amended): a parse failure of the derived secondary file
propagates out of the translation lookup to the per-file handler of
app.py line 175: the current match's frame is not emitted and the
remaining records of that primary file are skipped, but the walk does
continue with the remaining files and directories. -/
theorem secondary_parse_failure_amended :
    (∀ (env : Env) (directory q lang other fp : String) (sub : SubRecord) (st : SState)
        (e : String),
      strContains (pyLower sub.text) (pyLower q) = true →
      env.exists? (derivedSib fp lang other) = true →
      env.openSrt (derivedSib fp lang other) = Except.error e →
      processSub env directory q lang other fp sub st =
        StepRes.err
          { st with
            found := true, count := st.count + 1,
            events := st.events ++ [Event.opened (derivedSib fp lang other)] }) ∧
    (∀ (env : Env) (directory q lang other root f : String) (files : List String)
        (w : List (String × List String)) (st st' : SState) (subs : List SubRecord),
      endsWithStr f ("_" ++ lang ++ ".srt") = true →
      env.openSrt (joinPath root f) = Except.ok subs →
      processSubs env directory q lang other (joinPath root f) subs
          { st with events := st.events ++ [Event.opened (joinPath root f)] } =
        StepRes.err st' →
      processWalk env directory q lang other ((root, f :: files) :: w) st =
        processWalk env directory q lang other ((root, files) :: w) st') := by
  constructor
  · intro env directory q lang other fp sub st e hm hex hopen
    have hft := ft_error_value env directory sub.start fp lang other 1000 e hex hopen
    simp only [processSub, hm, if_true, hft]
  · intro env directory q lang other root f files w st st' subs hsuf hopen hsubs
    simp only [processWalk, processFiles, hsuf, if_true, processFile, hopen, hsubs]

theorem secondary_parse_failure_amended_witness :
    processSub c3env "d" "hello" "en" "ru" "d/m_en.srt" ⟨0, 0, "hello one"⟩
        { count := 0, found := false, sendIdx := 0, events := [] } =
      StepRes.err
        { count := 1, found := true, sendIdx := 0,
          events := [Event.opened "d/m_ru.srt"] } :=
  secondary_parse_failure_amended.1 c3env "d" "hello" "en" "ru" "d/m_en.srt"
    ⟨0, 0, "hello one"⟩ { count := 0, found := false, sendIdx := 0, events := [] }
    "corrupt" (by decide) (by decide) rfl

/-! Exception flow of a failed frame write (claim C5). -/

/-- Frames among the events, in order. -/
def sentFrames (evs : List Event) : List String :=
  evs.filterMap (fun e => match e with
    | Event.sent f => some f
    | Event.opened _ => none)

/-- Environment for the C5 counterexample: two one-record matching
files; the first `sendall` raises, the second succeeds. -/
def c5env : Env :=
  { walk := fun _ => [("d", ["a_en.srt", "b_en.srt"])],
    exists? := fun _ => false,
    openSrt := fun p =>
      if p == "d/a_en.srt" then Except.ok [⟨0, 0, "hi a"⟩]
      else Except.ok [⟨0, 0, "hi b"⟩],
    sendOk := fun n => n != 0 }

/-- C5 counterexample: the first frame's `sendall` raises (attempt 0),
yet the search does not endgame there: a second send is attempted
(final send index 2) and one frame is still emitted afterwards, and it
belongs to the second file — refuting the claim that after a send raises
no further frames are emitted and the session's connection is closed
rather than the search continuing with other files. -/
theorem send_failure_cex :
    (stream_subtitle_search c5env "d" "hi" 0).2.sendIdx = 2 ∧
    sentCount (stream_subtitle_search c5env "d" "hi" 0).2.events = 1 ∧
    strContains ((sentFrames (stream_subtitle_search c5env "d" "hi" 0).2.events).headD "")
      "b_en.srt" = true := by
  refine ⟨?_, ?_, ?_⟩ <;> decide

/-- C5 (amended): a `sendall` failure while writing a frame raises into
the per-file handler of app.py line 175: the remaining records of that
file are skipped but the walk continues with the remaining files and
directories, so frames may still be emitted after a failed send. The
session only ends when a send issued directly by `handle_client` (the
no-match notice or the end marker) raises, and the connection is always
closed when the session ends. -/
theorem send_failure_amended :
    (∀ (env : Env) (directory q lang other fp : String) (sub : SubRecord) (st : SState)
        (q4 : Option String × Option Int × Option Int × Option String),
      strContains (pyLower sub.text) (pyLower q) = true →
      (find_translation_in_other_lang env directory sub.start fp lang other 1000).2 =
        Except.ok q4 →
      env.sendOk st.sendIdx = false →
      processSub env directory q lang other fp sub st =
        StepRes.err
          { st with
            found := true, count := st.count + 1, sendIdx := st.sendIdx + 1,
            events := st.events ++
              (find_translation_in_other_lang env directory sub.start fp lang other 1000).1 }) ∧
    (∀ (env : Env) (directory q lang other fp : String) (st st' : SState)
        (subs : List SubRecord),
      env.openSrt fp = Except.ok subs →
      processSubs env directory q lang other fp subs
          { st with events := st.events ++ [Event.opened fp] } = StepRes.err st' →
      processFile env directory q lang other fp st = FileRes.cont st') ∧
    (∀ (env : Env) (directory q lang other root f : String) (files : List String)
        (w : List (String × List String)) (st st' : SState),
      endsWithStr f ("_" ++ lang ++ ".srt") = true →
      processFile env directory q lang other (joinPath root f) st = FileRes.cont st' →
      processWalk env directory q lang other ((root, f :: files) :: w) st =
        processWalk env directory q lang other ((root, files) :: w) st') ∧
    (∀ (env : Env) (directory q : String) (i : Nat),
      (stream_subtitle_search env directory q i).1 = true →
      env.sendOk (stream_subtitle_search env directory q i).2.sendIdx = false →
      (handle_one_query env directory q i).2.1 = true) ∧
    (∀ (env : Env) (directory : String) (queries : List String),
      (handle_client env directory queries).2 = true) := by
  refine ⟨?_, ?_, ?_, ?_, ?_⟩
  · intro env directory q lang other fp sub st q4 hm hok hsend
    obtain ⟨tt, ts, te, tp⟩ := q4
    simp only [processSub, hm, if_true, hok, hsend]
    simp
  · intro env directory q lang other fp st st' subs hopen hsubs
    simp only [processFile, hopen, hsubs]
  · intro env directory q lang other root f files w st st' hsuf hfile
    simp only [processWalk, processFiles, hsuf, if_true, hfile]
  · intro env directory q i hfound hsend
    simp only [handle_one_query, hfound, if_true, hsend]
    simp
  · intro env directory queries
    rfl

theorem send_failure_amended_witness :
    processSub c5env "d" "hi" "en" "ru" "d/a_en.srt" ⟨0, 0, "hi a"⟩
        { count := 0, found := false, sendIdx := 0, events := [] } =
      StepRes.err { count := 1, found := true, sendIdx := 1, events := [] } :=
  send_failure_amended.1 c5env "d" "hi" "en" "ru" "d/a_en.srt" ⟨0, 0, "hi a"⟩
    { count := 0, found := false, sendIdx := 0, events := [] }
    (none, none, none, none) (by decide) rfl (by decide)

/-! Truthiness of the translated text (claim C9). -/

theorem isPrefixOf_append_self : ∀ (l t : List Char), l.isPrefixOf (l ++ t) = true := by
  intro l t
  induction l with
  | nil => simp [List.isPrefixOf]
  | cons c r ih => simp [List.isPrefixOf, ih]

theorem containsSub_here : ∀ (n t : List Char), containsSub n (n ++ t) = true := by
  intro n t
  cases n with
  | nil =>
    cases t with
    | nil => rfl
    | cons c r => simp [containsSub, List.isPrefixOf]
  | cons c n' =>
    show containsSub (c :: n') (c :: (n' ++ t)) = true
    rw [containsSub]
    have := isPrefixOf_append_self (c :: n') t
    rw [List.cons_append] at this
    simp [this]

theorem containsSub_right : ∀ (l1 n l2 : List Char),
    containsSub n l2 = true → containsSub n (l1 ++ l2) = true := by
  intro l1
  induction l1 with
  | nil => intro n l2 h; exact h
  | cons c r ih =>
    intro n l2 h
    rw [List.cons_append, containsSub, ih n l2 h]
    simp

/-- The frame built with an absent translation always carries the
no-translation notice. -/
theorem frame_none_contains (orig : LangInfo) :
    strContains (format_single_result orig none) "No corresponding translation found." = true := by
  have hdata : (format_single_result orig none).data =
      (orig.language ++ " (" ++ orig.file ++ ") " ++ orig.start_time ++ " -> "
          ++ orig.end_time ++ "\n" ++ (orig.text ++ "\n") ++ "\n").data ++
        (("No corresponding translation found." : String).data ++
          ("\n" ++ "\n" ++ String.mk (List.replicate 80 '-')).data) := by
    simp [format_single_result, String.data_append]
  rw [strContains, hdata]
  exact containsSub_right _ _ _ (containsSub_here _ _)

/-- The original-language block built for a match (app.py lines
130-138). -/
def origInfo (lang_suffix file_path : String) (sub : SubRecord) : LangInfo :=
  { language := pyUpper lang_suffix, file := file_path,
    start_time := timeStr sub.start, end_time := timeStr sub.«end»,
    text := normalize_text sub.text }

/-- C9: when the sibling file exists and holds a time-aligned record
within tolerance whose text strips to the empty string, presence of a
translation is decided by the truthiness of the text field: the frame is
emitted with an absent translation, i.e. with the literal
"No corresponding translation found.". -/
theorem empty_translation_treated_absent (env : Env) (directory q lang other fp : String)
    (sub : SubRecord) (st : SState) (subs2 : List SubRecord) (s2 : SubRecord)
    (hm : strContains (pyLower sub.text) (pyLower q) = true)
    (hex : env.exists? (derivedSib fp lang other) = true)
    (hopen : env.openSrt (derivedSib fp lang other) = Except.ok subs2)
    (hclosest : find_closest_sub sub.start subs2 1000 = some s2)
    (hempty : pyStrip s2.text = "")
    (hsend : env.sendOk st.sendIdx = true) :
    processSub env directory q lang other fp sub st =
      (if SEARCH_LIMIT ≤ st.count + 1 then
        StepRes.capstop
          { st with
            found := true, count := st.count + 1, sendIdx := st.sendIdx + 1,
            events := (st.events ++ [Event.opened (derivedSib fp lang other)]) ++
              [Event.sent (format_single_result (origInfo lang fp sub) none)] }
      else
        StepRes.cont
          { st with
            found := true, count := st.count + 1, sendIdx := st.sendIdx + 1,
            events := (st.events ++ [Event.opened (derivedSib fp lang other)]) ++
              [Event.sent (format_single_result (origInfo lang fp sub) none)] }) ∧
    strContains (format_single_result (origInfo lang fp sub) none)
      "No corresponding translation found." = true := by
  have hft : find_translation_in_other_lang env directory sub.start fp lang other 1000 =
      ([Event.opened (derivedSib fp lang other)],
        Except.ok (some (pyStrip s2.text), some s2.start, some s2.«end»,
          some (derivedSib fp lang other))) := by
    simp only [find_translation_in_other_lang]
    rw [show joinPath (dirname fp)
        (pyReplace (basename fp) ("_" ++ lang) ("_" ++ other)) =
        derivedSib fp lang other from rfl, hex, hopen]
    simp [hclosest]
  refine ⟨?_, frame_none_contains _⟩
  simp only [processSub, hm, if_true, hft, hempty, hsend]
  simp [origInfo]

/-- Environment for the C9 witness: the sibling record's text is
whitespace only, so it strips to empty. -/
def c9env : Env :=
  { walk := fun _ => [("d", ["m_en.srt"])],
    exists? := fun p => p == "d/m_ru.srt",
    openSrt := fun p =>
      if p == "d/m_ru.srt" then Except.ok [⟨100, 900, "   "⟩]
      else Except.ok [⟨0, 0, "hello"⟩],
    sendOk := fun _ => true }

theorem empty_translation_treated_absent_witness :
    strContains (format_single_result (origInfo "en" "d/m_en.srt" ⟨0, 0, "hello"⟩) none)
      "No corresponding translation found." = true :=
  (empty_translation_treated_absent c9env "d" "hello" "en" "ru" "d/m_en.srt"
    ⟨0, 0, "hello"⟩ { count := 0, found := false, sendIdx := 0, events := [] }
    [⟨100, 900, "   "⟩] ⟨100, 900, "   "⟩
    (by decide) (by decide) rfl (by decide) (by decide) (by decide)).2

/-! The no-match notice and the end marker (claim C8). -/

/-- No record of any relevant file under this root matches the query. -/
def noMatchFiles (env : Env) (q lang root : String) (files : List String) : Prop :=
  ∀ f ∈ files, endsWithStr f ("_" ++ lang ++ ".srt") = true →
    ∀ subs, env.openSrt (joinPath root f) = Except.ok subs →
      ∀ s ∈ subs, strContains (pyLower s.text) (pyLower q) = false

/-- No record of any relevant file in the whole walk matches the query. -/
def noMatchWalk (env : Env) (q lang : String) (walk : List (String × List String)) : Prop :=
  ∀ rf ∈ walk, noMatchFiles env q lang rf.1 rf.2

theorem processSubs_noMatch (env : Env) (directory q lang other fp : String)
    (subs : List SubRecord) :
    ∀ st : SState, (∀ s ∈ subs, strContains (pyLower s.text) (pyLower q) = false) →
      processSubs env directory q lang other fp subs st = StepRes.cont st := by
  induction subs with
  | nil => intro st _; rfl
  | cons sub rest ih =>
    intro st h
    have hsub : processSub env directory q lang other fp sub st = StepRes.cont st := by
      simp [processSub, h sub (by simp)]
    simp only [processSubs, hsub]
    exact ih st (fun s hs => h s (List.mem_cons_of_mem _ hs))

theorem processFile_noMatch (env : Env) (directory q lang other fp : String) (st : SState)
    (h : ∀ subs, env.openSrt fp = Except.ok subs →
      ∀ s ∈ subs, strContains (pyLower s.text) (pyLower q) = false) :
    processFile env directory q lang other fp st =
      FileRes.cont { st with events := st.events ++ [Event.opened fp] } := by
  simp only [processFile]
  split
  · rfl
  · rename_i subs heq
    rw [processSubs_noMatch env directory q lang other fp subs _ (h subs heq)]

theorem processFiles_noMatch (env : Env) (directory q lang other root : String)
    (files : List String) :
    ∀ st : SState, noMatchFiles env q lang root files →
      ∃ evs, processFiles env directory q lang other root files st =
          FileRes.cont { st with events := st.events ++ evs } ∧ sentCount evs = 0 := by
  induction files with
  | nil =>
    intro st _
    refine ⟨[], ?_, rfl⟩
    rw [List.append_nil]
    rfl
  | cons f rest ih =>
    intro st h
    simp only [processFiles]
    split
    · rename_i hsuf
      rw [processFile_noMatch env directory q lang other (joinPath root f) st
        (fun subs hopen => h f (by simp) hsuf subs hopen)]
      obtain ⟨evs, heq, hz⟩ :=
        ih { st with events := st.events ++ [Event.opened (joinPath root f)] }
          (fun f' hf' => h f' (List.mem_cons_of_mem _ hf'))
      refine ⟨Event.opened (joinPath root f) :: evs, ?_, ?_⟩
      · show processFiles env directory q lang other root rest
            { st with events := st.events ++ [Event.opened (joinPath root f)] } = _
        rw [heq]
        congr 1
        simp [List.append_assoc]
      · rw [show Event.opened (joinPath root f) :: evs =
            [Event.opened (joinPath root f)] ++ evs from rfl,
          sentCount_append, sentCount_opened_zero, hz]
    · exact ih st (fun f' hf' => h f' (List.mem_cons_of_mem _ hf'))

theorem processWalk_noMatch (env : Env) (directory q lang other : String)
    (walk : List (String × List String)) :
    ∀ st : SState, noMatchWalk env q lang walk →
      ∃ evs, processWalk env directory q lang other walk st =
          FileRes.cont { st with events := st.events ++ evs } ∧ sentCount evs = 0 := by
  induction walk with
  | nil =>
    intro st _
    refine ⟨[], ?_, rfl⟩
    rw [List.append_nil]
    rfl
  | cons rootFiles rest ih =>
    intro st h
    obtain ⟨root, files⟩ := rootFiles
    simp only [processWalk]
    obtain ⟨evs1, heq1, hz1⟩ := processFiles_noMatch env directory q lang other root files st
      (h (root, files) (by simp))
    rw [heq1]
    obtain ⟨evs2, heq2, hz2⟩ := ih { st with events := st.events ++ evs1 }
      (fun rf hrf => h rf (List.mem_cons_of_mem _ hrf))
    refine ⟨evs1 ++ evs2, ?_, ?_⟩
    · show processWalk env directory q lang other rest
          { st with events := st.events ++ evs1 } = _
      rw [heq2]
      congr 1
      simp [List.append_assoc]
    · rw [sentCount_append, hz1, hz2]

theorem stream_noMatch (env : Env) (directory q : String) (i : Nat)
    (h : noMatchWalk env q
      (if is_russian q then ("ru", "en") else ("en", "ru")).1 (env.walk directory)) :
    ∃ evs, stream_subtitle_search env directory q i =
        (false, { count := 0, found := false, sendIdx := i, events := evs }) ∧
      sentCount evs = 0 := by
  obtain ⟨evs, heq, hz⟩ := processWalk_noMatch env directory q
    (if is_russian q then ("ru", "en") else ("en", "ru")).1
    (if is_russian q then ("ru", "en") else ("en", "ru")).2
    (env.walk directory) { count := 0, found := false, sendIdx := i, events := [] } h
  refine ⟨evs, ?_, hz⟩
  simp only [stream_subtitle_search, heq]
  rfl

/-- C8: with a healthy connection, the end marker `"\n<END>\n"` is
always the last payload written for a query's round-trip (found or
not); and a query with zero substring matches makes the session write
exactly the literal notice `"No matching subtitles found."` followed by
the end marker, with no match frame, and the session continues. -/
theorem no_match_notice_and_end_marker (env : Env) (directory q : String) (i : Nat)
    (hsend : ∀ n, env.sendOk n = true) :
    ((handle_one_query env directory q i).1.getLast? = some (Event.sent "\n<END>\n")) ∧
    (noMatchWalk env q
        (if is_russian q then ("ru", "en") else ("en", "ru")).1 (env.walk directory) →
      (handle_one_query env directory q i).1.filter isSentEv =
        [Event.sent "No matching subtitles found.", Event.sent "\n<END>\n"] ∧
      (handle_one_query env directory q i).2.1 = false) := by
  constructor
  · simp only [handle_one_query, hsend, if_true]
    cases hf : (stream_subtitle_search env directory q i).1 with
    | true =>
      simp [hf, List.getLast?_concat]
    | false =>
      have hsplit : (stream_subtitle_search env directory q i).2.events ++
          [Event.sent "No matching subtitles found.", Event.sent "\n<END>\n"] =
          ((stream_subtitle_search env directory q i).2.events ++
            [Event.sent "No matching subtitles found."]) ++ [Event.sent "\n<END>\n"] := by
        rw [List.append_assoc]
        rfl
      simp only [Bool.false_eq_true, if_false]
      rw [hsplit, List.getLast?_concat]
  · intro hnm
    obtain ⟨evs, heq, hz⟩ := stream_noMatch env directory q i hnm
    have hfil : evs.filter isSentEv = [] := by
      rw [List.filter_eq_nil_iff]
      intro e he hse
      have : 0 < sentCount evs := by
        rw [sentCount]
        exact List.countP_pos_iff.mpr ⟨e, he, hse⟩
      omega
    constructor
    · simp only [handle_one_query, heq, hsend, if_true]
      simp [List.filter_append, hfil, isSentEv]
    · simp only [handle_one_query, heq, hsend, if_true]
      simp

/-- Environment for the C8 witness: an empty tree. -/
def c8env : Env :=
  { walk := fun _ => [], exists? := fun _ => false,
    openSrt := fun _ => Except.ok [], sendOk := fun _ => true }

theorem no_match_notice_and_end_marker_witness :
    (handle_one_query c8env "d" "query" 0).1.filter isSentEv =
      [Event.sent "No matching subtitles found.", Event.sent "\n<END>\n"] :=
  ((no_match_notice_and_end_marker c8env "d" "query" 0 (fun _ => rfl)).2
    (fun rf hrf => absurd hrf (List.not_mem_nil rf))).1

end Reverso
